import Mathlib

/-!
Verification of the sidb paged key-value storage substrate.

Shallow embedding of the Go sources: bytes are `Nat` values below 256,
byte slices are `List Nat` (a `none : Option (List Nat)` models a Go
`nil` slice where the code distinguishes `nil` from an empty slice),
and fallible operations return `Except`.  Machine integers are modelled
as `Nat`; the 64-bit range shows up as explicit `2 ^ 64` bounds where
the Go code works with `uint64` values.
-/

namespace Sidb

/-! ## Constants (db.go) -/

def Magic : Nat := 0x42444953

def Version : Nat := 1

def maxMapSize : Nat := 0xFFFFFFFFFFFF

def maxMmapStep : Nat := 1 <<< 30

def AllocPages : Nat := 8

/-! ## Record codec (kv.go, embedded in src/db_test.go lines 20-173) -/

def KVKeyPrefixed : Nat := 1

def KVKeyCompressed : Nat := 2

def KVValueCompressed : Nat := 4

def minKVSize : Nat := 5

structure KVPair where
  Key : List Nat
  Value : List Nat
deriving DecidableEq

/-- Loop body of `getCommonPrefix`: ranges over `b`, comparing with `a`
pairwise, accumulating `len`; returns early on exhaustion of `a`, on a
mismatch, or once the accumulated length reaches 255. -/
def gcpAux : List Nat → List Nat → Nat → Nat
  | _, [], len => len
  | [], _ :: _, len => len
  | x :: xs, y :: ys, len =>
    if y ≠ x then len
    else if 255 ≤ len + 1 then len + 1
    else gcpAux xs ys (len + 1)

/-- `getCommonPrefix(a, b)` from kv.go: longest common byte stem of `a`
and `b`, capped at 255 (the result is a `uint8` in Go).  A Go `nil`
slice behaves exactly like the empty list here, so both are `[]`. -/
def getCommonPrefix (a b : List Nat) : Nat :=
  if a = [] ∨ b = [] then 0 else gcpAux a b 0

/-- `binary.PutUvarint`: little-endian base-128 varint encoding. -/
def putUvarint (n : Nat) : List Nat :=
  if n < 128 then [n]
  else (n % 128 + 128) :: putUvarint (n / 128)
termination_by n
decreasing_by exact Nat.div_lt_self (by omega) (by omega)

inductive UvErr
  | eof
  | unexpectedEOF
  | overflow
deriving DecidableEq

/-- `binary.ReadUvarint` over a byte-reader positioned at `data`:
at most 10 bytes are consumed, the final byte of a 10-byte encoding may
only be 0 or 1 (64-bit overflow check), and running out of input after
at least one byte yields `io.ErrUnexpectedEOF` instead of `io.EOF`. -/
def readUvarintAux (x s i : Nat) (data : List Nat) : Except UvErr (Nat × List Nat) :=
  if 10 ≤ i then .error .overflow
  else
    match data with
    | [] => if 0 < i then .error .unexpectedEOF else .error .eof
    | b :: rest =>
      if b < 128 then
        if i = 9 ∧ 1 < b then .error .overflow
        else .ok (x ||| (b <<< s), rest)
      else readUvarintAux (x ||| ((b % 128) <<< s)) (s + 7) (i + 1) rest
termination_by data.length
decreasing_by simp

def readUvarint (data : List Nat) : Except UvErr (Nat × List Nat) :=
  readUvarintAux 0 0 0 data

/-- The compression step of `KVPair.Marshal` for one field: when a
compressor is installed, its output is adopted only if strictly
smaller; the boolean reports whether the corresponding flag bit is
set. -/
def kvCompressPart (c : Option (List Nat → List Nat)) (x : List Nat) :
    List Nat × Bool :=
  match c with
  | none => (x, false)
  | some f =>
    let xc := f x
    if xc.length < x.length then (xc, true) else (x, false)

/-- `KVPair.Marshal(prevKey, compressor)`: flag byte, optional prefix
length byte, varint key length, key bytes, varint value length, value
bytes. -/
def kvMarshal (kv : KVPair) (prevKey : List Nat)
    (c : Option (List Nat → List Nat)) : List Nat :=
  let prefixLen := getCommonPrefix prevKey kv.Key
  let flag0 : Nat := if 0 < prefixLen then 0 ||| KVKeyPrefixed else 0
  let keyPart := kvCompressPart c (kv.Key.drop prefixLen)
  let flag1 : Nat := if keyPart.2 then flag0 ||| KVKeyCompressed else flag0
  let valPart := kvCompressPart c kv.Value
  let flag2 : Nat := if valPart.2 then flag1 ||| KVValueCompressed else flag1
  [flag2] ++ (if 0 < prefixLen then [prefixLen] else []) ++
    putUvarint keyPart.1.length ++ keyPart.1 ++
    putUvarint valPart.1.length ++ valPart.1

/-- Go's `bytes.Reader.Read` into a fresh zeroed buffer of length `k`:
`io.EOF` only when the reader is already exhausted; otherwise up to `k`
bytes are copied and the rest of the buffer keeps its zero fill, with
no error even on a short read. -/
def goRead (k : Nat) (data : List Nat) : Except Unit (List Nat × List Nat) :=
  match data with
  | [] => .error ()
  | _ :: _ =>
    let n := min k data.length
    .ok (data.take n ++ List.replicate (k - n) 0, data.drop n)

inductive KVErr
  | empty
  | truncated
  | badPrefixLen
  | missingDecompressor
  | keyLen (e : UvErr)
  | keyRead
  | valLen (e : UvErr)
  | valRead
  | keyDecomp
  | valDecomp
deriving DecidableEq

/-- `KVPair.Unmarshal(data, prevKey, decompressor)`.  `data = none`
models a Go `nil` slice (the code tests `data == nil` explicitly,
before the minimum-size test); `some l` is a non-nil slice holding
`l`. -/
def kvUnmarshal (data : Option (List Nat)) (prevKey : List Nat)
    (dec : Option (List Nat → Except Unit (List Nat))) : Except KVErr KVPair :=
  match data with
  | none => .error .empty
  | some d =>
    if d.length < minKVSize then .error .truncated
    else
      let flag := d.headD 0
      let r0 := d.tail
      let pstep : Except KVErr (List Nat × List Nat) :=
        if flag &&& KVKeyPrefixed ≠ 0 then
          let prefixedLen := r0.headD 0
          if prevKey.length < prefixedLen then .error .badPrefixLen
          else .ok (prevKey.take prefixedLen, r0.tail)
        else .ok ([], r0)
      match pstep with
      | .error e => .error e
      | .ok (pfx, r1) =>
        if dec.isNone ∧ (flag &&& KVKeyCompressed ≠ 0 ∨ flag &&& KVValueCompressed ≠ 0) then
          .error .missingDecompressor
        else
          match readUvarint r1 with
          | .error e => .error (.keyLen e)
          | .ok (kLen, r2) =>
            match goRead kLen r2 with
            | .error _ => .error .keyRead
            | .ok (keyRaw, r3) =>
              match readUvarint r3 with
              | .error e => .error (.valLen e)
              | .ok (vLen, r4) =>
                match goRead vLen r4 with
                | .error _ => .error .valRead
                | .ok (valRaw, _) =>
                  let keyStep : Except KVErr (List Nat) :=
                    if flag &&& KVKeyCompressed ≠ 0 then
                      match dec with
                      | some f =>
                        match f keyRaw with
                        | .ok k => .ok k
                        | .error _ => .error .keyDecomp
                      | none => .error .missingDecompressor
                    else .ok keyRaw
                  match keyStep with
                  | .error e => .error e
                  | .ok key =>
                    let valStep : Except KVErr (List Nat) :=
                      if flag &&& KVValueCompressed ≠ 0 then
                        match dec with
                        | some f =>
                          match f valRaw with
                          | .ok v => .ok v
                          | .error _ => .error .valDecomp
                        | none => .error .missingDecompressor
                      else .ok valRaw
                    match valStep with
                    | .error e => .error e
                    | .ok val => .ok ⟨pfx ++ key, val⟩

/-! ## File growth (db.go, DB.grow) -/

/-- `DB.grow(sz)` reduced to its size arithmetic: the new tracked file
size as a function of the current file size, the mapped data size, the
allocation threshold (`AllocPages * pageSize`) and the requested size,
assuming the truncate/sync syscalls succeed. -/
def grow (filesz datasz allocSize sz : Nat) : Nat :=
  if sz ≤ filesz then filesz
  else if datasz < allocSize then datasz
  else sz + allocSize

/-! ## Mmap sizing (db.go, DB.mmapSize) -/

/-- The doubling loop of `DB.mmapSize`: `for i := 15; i <= 30; i++`,
returning the first `1 << i` at or above `size`. -/
def mmapSizeLoop (size i : Nat) : Option Nat :=
  if h : i ≤ 30 then
    if size ≤ 1 <<< i then some (1 <<< i) else mmapSizeLoop size (i + 1)
  else none
termination_by 31 - i
decreasing_by omega

/-- `DB.mmapSize(size)`: power-of-two doubling from 32 KiB to 1 GiB,
then 1 GiB stepping rounded to the page size, clamped at, and rejected
above, `maxMapSize`. -/
def mmapSize (pageSize size : Nat) : Except Unit Nat :=
  match mmapSizeLoop size 15 with
  | some r => .ok r
  | none =>
    if size > maxMapSize then .error ()
    else
      let sz1 := if size % maxMmapStep > 0 then size + (maxMmapStep - size % maxMmapStep) else size
      let sz2 := if sz1 % pageSize ≠ 0 then (sz1 / pageSize + 1) * pageSize else sz1
      if sz2 > maxMapSize then .ok maxMapSize else .ok sz2

/-- Round `n` up to the next multiple of `m` (spec-side description of
the two rounding steps of `mmapSize`). -/
def roundUpTo (m n : Nat) : Nat :=
  if n % m = 0 then n else (n / m + 1) * m

/-- Spec-side description of the above-1-GiB branch of `mmapSize`: the
request rounded up to a 1 GiB multiple, then to a page-size multiple,
clamped at `maxMapSize`. -/
def mmapSizeSpecLarge (pageSize size : Nat) : Nat :=
  min (roundUpTo pageSize (roundUpTo maxMmapStep size)) maxMapSize

/-! ## Head page validation (db.go, HeadPage.validate) -/

structure RecordPtr where
  pageNum : Nat
  offset : Nat
deriving DecidableEq

structure HeadPage where
  magic : Nat
  Checksum : Nat
  Version : Nat
  Compression : Nat
  PageSize : Nat
  PageCount : Nat
  IndexPageCount : Nat
  indexPtr : RecordPtr
  kvPtr : RecordPtr
  nextIndexPage : Nat
  ptr : Nat
deriving DecidableEq

/-- One bit step of the reflected CRC-32 (polynomial 0xEDB88320). -/
def crc32Bit (c : Nat) : Nat :=
  if c % 2 = 1 then (c / 2) ^^^ 0xEDB88320 else c / 2

/-- One byte step of CRC-32/IEEE. -/
def crc32Byte (c b : Nat) : Nat :=
  crc32Bit^[8] (c ^^^ b)

/-- `crc32.ChecksumIEEE`. -/
def crc32IEEE (data : List Nat) : Nat :=
  (data.foldl crc32Byte 0xFFFFFFFF) ^^^ 0xFFFFFFFF

inductive ValidateErr
  | badMagic
  | versionMismatch
  | checksumMismatch
deriving DecidableEq

/-- `HeadPage.validate(db)`: magic, then version, then (only when the
stored checksum is non-zero) the CRC-32 over `db.data[h.ptr:h.PageSize]`.
`data` is the mapped region; the function only reads it. -/
def HeadPage.validate (h : HeadPage) (data : List Nat) : Except ValidateErr Unit :=
  if h.magic ≠ Magic then .error .badMagic
  else if h.Version ≠ Sidb.Version then .error .versionMismatch
  else if h.Checksum ≠ 0 ∧ h.Checksum ≠ crc32IEEE ((data.take h.PageSize).drop h.ptr) then
    .error .checksumMismatch
  else .ok ()

/-! ## Advisory locking (sidb_unix.go, embedded in src/compress.go) -/

def LOCK_SH : Nat := 1

def LOCK_EX : Nat := 2

def LOCK_NB : Nat := 4

def EWOULDBLOCK : Nat := 11

def EAGAIN : Nat := 11

/-- Outcome of the `syscall.Flock` call itself. -/
inductive FlockOutcome
  | ok
  | errno (e : Nat)
deriving DecidableEq

inductive FlockErr
  | writeByOther
  | wrapped (e : Nat)
deriving DecidableEq

/-- The flag `flock` passes to `syscall.Flock`: `LOCK_SH` in read-only
mode, `LOCK_EX` otherwise, always combined with `LOCK_NB`. -/
def flockFlag (readOnly : Bool) : Nat :=
  (if readOnly then LOCK_SH else LOCK_EX) ||| LOCK_NB

/-- How `flock` maps the syscall outcome to its result:
`EWOULDBLOCK`/`EAGAIN` become the sentinel `ErrWriteByOther`, any other
errno is wrapped. -/
def flockResult (outcome : FlockOutcome) : Except FlockErr Unit :=
  match outcome with
  | .ok => .ok ()
  | .errno e =>
    if e = EWOULDBLOCK ∨ e = EAGAIN then .error .writeByOther
    else .error (.wrapped e)

/-! ## Open control flow (db.go, Open / DB.close) -/

/-- Outcomes of the fallible steps inside `Open`, in program order. -/
structure OpenEnv where
  openOk : Bool
  notExist : Bool
  createOk : Bool
  flockOk : Bool
  statOk : Bool
  sizeZero : Bool
  initOk : Bool
  mmapOk : Bool
deriving DecidableEq

/-- What `Open` leaves behind: whether it returned a handle, whether
the file descriptor is still open, and whether the advisory lock is
still held. -/
structure OpenOutcome where
  success : Bool
  fdOpen : Bool
  locked : Bool
deriving DecidableEq

/-- `Open` after the file descriptor has been obtained.  `db.close()`
(which unmaps, releases the lock and closes the descriptor) is invoked
on the flock and mmap failure paths; the stat and init failure paths
return the error directly. -/
def openAfterFd (e : OpenEnv) : OpenOutcome :=
  if ¬ e.flockOk then ⟨false, false, false⟩
  else if ¬ e.statOk then ⟨false, true, true⟩
  else if e.sizeZero ∧ ¬ e.initOk then ⟨false, true, true⟩
  else if ¬ e.mmapOk then ⟨false, false, false⟩
  else ⟨true, true, true⟩

/-- The resource trace of `Open(path, mode, options)`: the first
`os.OpenFile` may fail, in which case a read-only open of a missing
file returns at once and every other failure retries with `O_CREATE`. -/
def openModel (e : OpenEnv) (readOnly : Bool) : OpenOutcome :=
  if e.openOk then openAfterFd e
  else if e.notExist ∧ readOnly then ⟨false, false, false⟩
  else if e.createOk then openAfterFd e
  else ⟨false, false, false⟩

/-! ## Compression selection in Open (db.go lines 184-273, compress.go) -/

def CompNone : Nat := 0

def CompSnappy : Nat := 1

def CompLz4 : Nat := 2

structure Options where
  NoGrowSync : Bool := false
  ReadOnly : Bool := false
  OrderedWrite : Bool := false
  MmapFlags : Nat := 0
  InitialMmapSize : Nat := 0
  Compression : Nat := 0
deriving DecidableEq

def DefaultOptions : Options := { NoGrowSync := false }

/-- Tag naming which backend function pair `Open` installs. -/
inductive BackendFn
  | snappy
  | lz4
deriving DecidableEq

/-- The compression algorithm `Open` records on the handle:
`options.Compression`, with `nil` options replaced by
`DefaultOptions`. -/
def openCompression (options : Option Options) : Nat :=
  (options.getD DefaultOptions).Compression

/-- The `switch db.compression` at the end of `Open`: which compressor
and decompressor functions are installed (both stay `nil` outside the
two listed cases). -/
def openBackends (options : Option Options) : Option BackendFn × Option BackendFn :=
  let comp := openCompression options
  if comp = CompSnappy then (some .snappy, some .snappy)
  else if comp = CompLz4 then (some .lz4, some .lz4)
  else (none, none)

/-! ## Helper lemmas: common prefix -/

/-- Uncapped common stem length of two byte lists (proof-side helper
used to characterise `getCommonPrefix`). -/
def cpl : List Nat → List Nat → Nat
  | x :: xs, y :: ys => if x = y then cpl xs ys + 1 else 0
  | _, _ => 0

lemma cpl_nil_left (b : List Nat) : cpl [] b = 0 := by
  cases b <;> rfl

lemma cpl_nil_right (a : List Nat) : cpl a [] = 0 := by
  cases a <;> rfl

lemma cpl_comm (a : List Nat) : ∀ b : List Nat, cpl a b = cpl b a := by
  induction a with
  | nil => intro b; rw [cpl_nil_left, cpl_nil_right]
  | cons x xs ih =>
    intro b
    cases b with
    | nil => rw [cpl_nil_left, cpl_nil_right]
    | cons y ys =>
      show (if x = y then cpl xs ys + 1 else 0) = (if y = x then cpl ys xs + 1 else 0)
      by_cases h : x = y
      · rw [if_pos h, if_pos h.symm, ih]
      · rw [if_neg h, if_neg (fun h2 => h h2.symm)]

lemma cpl_le_left (a : List Nat) : ∀ b : List Nat, cpl a b ≤ a.length := by
  induction a with
  | nil => intro b; rw [cpl_nil_left]; exact Nat.zero_le _
  | cons x xs ih =>
    intro b
    cases b with
    | nil => rw [cpl_nil_right]; exact Nat.zero_le _
    | cons y ys =>
      show (if x = y then cpl xs ys + 1 else 0) ≤ xs.length + 1
      by_cases h : x = y
      · rw [if_pos h]; exact Nat.succ_le_succ (ih ys)
      · rw [if_neg h]; exact Nat.zero_le _

lemma cpl_take (a : List Nat) : ∀ (b : List Nat) (j : Nat), j ≤ cpl a b →
    a.take j = b.take j := by
  induction a with
  | nil =>
    intro b j hj
    rw [cpl_nil_left] at hj
    interval_cases j
    simp
  | cons x xs ih =>
    intro b j hj
    cases b with
    | nil => rw [cpl_nil_right] at hj; interval_cases j; simp
    | cons y ys =>
      have hj2 : j ≤ (if x = y then cpl xs ys + 1 else 0) := hj
      by_cases h : x = y
      · rw [if_pos h] at hj2
        cases j with
        | zero => simp
        | succ k =>
          simp only [List.take_succ_cons, h]
          rw [ih ys k (Nat.le_of_succ_le_succ hj2)]
      · rw [if_neg h] at hj2
        interval_cases j
        simp

lemma cpl_self_append (a t : List Nat) : cpl a (a ++ t) = a.length := by
  induction a with
  | nil => rw [cpl_nil_left]; rfl
  | cons x xs ih =>
    show (if x = x then cpl xs (xs ++ t) + 1 else 0) = xs.length + 1
    rw [if_pos rfl, ih]

lemma cpl_ge_of_take (a : List Nat) : ∀ (b : List Nat) (j : Nat),
    j ≤ a.length → a.take j = b.take j → j ≤ cpl a b := by
  induction a with
  | nil => intro b j hj _; simp at hj; omega
  | cons x xs ih =>
    intro b j hj htake
    cases j with
    | zero => exact Nat.zero_le _
    | succ k =>
      cases b with
      | nil => simp at htake
      | cons y ys =>
        simp only [List.take_succ_cons, List.cons.injEq] at htake
        have : k + 1 ≤ (if x = y then cpl xs ys + 1 else 0) := by
          rw [if_pos htake.1]
          exact Nat.succ_le_succ (ih ys k (by simpa using Nat.le_of_succ_le_succ hj) htake.2)
        exact this

lemma gcpAux_eq (a : List Nat) : ∀ (b : List Nat) (len : Nat), len < 255 →
    gcpAux a b len = min (len + cpl a b) 255 := by
  induction a with
  | nil =>
    intro b len h
    cases b with
    | nil => show len = min (len + 0) 255; omega
    | cons y ys => show len = min (len + cpl [] (y :: ys)) 255; rw [cpl_nil_left]; omega
  | cons x xs ih =>
    intro b len h
    cases b with
    | nil => show len = min (len + cpl (x :: xs) []) 255; rw [cpl_nil_right]; omega
    | cons y ys =>
      show (if y ≠ x then len else if 255 ≤ len + 1 then len + 1 else gcpAux xs ys (len + 1))
          = min (len + (if x = y then cpl xs ys + 1 else 0)) 255
      by_cases hxy : x = y
      · rw [if_neg (by simp [hxy]), if_pos hxy]
        by_cases hcap : 255 ≤ len + 1
        · rw [if_pos hcap]; omega
        · rw [if_neg hcap, ih ys (len + 1) (by omega)]; omega
      · rw [if_pos (fun h2 => hxy h2.symm), if_neg hxy]; omega

lemma getCommonPrefix_eq_min (a b : List Nat) :
    getCommonPrefix a b = min (cpl a b) 255 := by
  rw [getCommonPrefix]
  by_cases h : a = [] ∨ b = []
  · rw [if_pos h]
    rcases h with h | h
    · subst h; rw [cpl_nil_left]; omega
    · subst h; rw [cpl_nil_right]; omega
  · rw [if_neg h, gcpAux_eq a b 0 (by omega), Nat.zero_add]

lemma getCommonPrefix_le_255 (a b : List Nat) : getCommonPrefix a b ≤ 255 := by
  rw [getCommonPrefix_eq_min]; omega

lemma getCommonPrefix_le_left (a b : List Nat) :
    getCommonPrefix a b ≤ a.length := by
  rw [getCommonPrefix_eq_min]
  exact le_trans (Nat.min_le_left _ _) (cpl_le_left a b)

lemma take_getCommonPrefix (a b : List Nat) :
    a.take (getCommonPrefix a b) = b.take (getCommonPrefix a b) := by
  apply cpl_take
  rw [getCommonPrefix_eq_min]
  exact Nat.min_le_left _ _

/-! ## Helper lemmas: varint round trip -/

lemma putUvarint_ne_nil (n : Nat) : putUvarint n ≠ [] := by
  rw [putUvarint]
  by_cases h : n < 128
  · rw [if_pos h]; simp
  · rw [if_neg h]; simp

lemma shiftLeft_lor_split (n s : Nat) :
    ((n % 128) <<< s) ||| ((n / 128) <<< (s + 7)) = n <<< s := by
  apply Nat.eq_of_testBit_eq
  intro i
  have h128 : (128 : Nat) = 2 ^ 7 := by norm_num
  rw [h128, ← Nat.shiftRight_eq_div_pow]
  simp only [Nat.testBit_lor, Nat.testBit_shiftLeft, Nat.testBit_mod_two_pow,
    Nat.testBit_shiftRight]
  rcases Nat.lt_or_ge i s with hlt | hge
  · have h1 : ¬ (i ≥ s) := by omega
    have h2 : ¬ (i ≥ s + 7) := by omega
    simp [h1, h2]
  · rcases Nat.lt_or_ge i (s + 7) with hlt7 | hge7
    · have h1 : i ≥ s := hge
      have h2 : ¬ (i ≥ s + 7) := by omega
      have h3 : i - s < 7 := by omega
      simp [h1, h2, h3]
    · have h2 : i ≥ s + 7 := hge7
      have h3 : ¬ (i - s < 7) := by omega
      have h4 : 7 + (i - (s + 7)) = i - s := by omega
      simp [hge, h2, h3, h4]

lemma readUvarintAux_putUvarint (n : Nat) : ∀ (x s i : Nat) (rest : List Nat),
    i ≤ 9 → n < 2 ^ (64 - 7 * i) →
    readUvarintAux x s i (putUvarint n ++ rest) = .ok (x ||| (n <<< s), rest) := by
  induction n using Nat.strong_induction_on with
  | _ n ih =>
    intro x s i rest hi hn
    rw [putUvarint]
    by_cases h : n < 128
    · rw [if_pos h]
      show readUvarintAux x s i (n :: rest) = .ok (x ||| (n <<< s), rest)
      rw [readUvarintAux]
      rw [if_neg (by omega)]
      show (if n < 128 then if i = 9 ∧ 1 < n then Except.error UvErr.overflow
            else Except.ok (x ||| (n <<< s), rest)
          else readUvarintAux (x ||| ((n % 128) <<< s)) (s + 7) (i + 1) rest)
          = Except.ok (x ||| (n <<< s), rest)
      rw [if_pos h]
      have : ¬ (i = 9 ∧ 1 < n) := by
        rintro ⟨h9, h1⟩
        subst h9
        have : 64 - 7 * 9 = 1 := by norm_num
        rw [this] at hn
        omega
      rw [if_neg this]
    · rw [if_neg h]
      show readUvarintAux x s i ((n % 128 + 128) :: (putUvarint (n / 128) ++ rest))
          = .ok (x ||| (n <<< s), rest)
      rw [readUvarintAux]
      rw [if_neg (by omega)]
      show (if n % 128 + 128 < 128 then _ else
            readUvarintAux (x ||| (((n % 128 + 128) % 128) <<< s)) (s + 7) (i + 1)
              (putUvarint (n / 128) ++ rest))
          = Except.ok (x ||| (n <<< s), rest)
      rw [if_neg (by omega)]
      have hi8 : i ≤ 8 := by
        by_contra hgt
        have h9 : i = 9 := by omega
        subst h9
        have : 64 - 7 * 9 = 1 := by norm_num
        rw [this] at hn
        omega
      have hdiv : n / 128 < 2 ^ (64 - 7 * (i + 1)) := by
        rw [Nat.div_lt_iff_lt_mul (by norm_num : (0:Nat) < 128)]
        have hsplit : 64 - 7 * i = (64 - 7 * (i + 1)) + 7 := by omega
        rw [hsplit, pow_add] at hn
        calc n < 2 ^ (64 - 7 * (i + 1)) * 2 ^ 7 := hn
        _ = 2 ^ (64 - 7 * (i + 1)) * 128 := by norm_num
      have hmod : (n % 128 + 128) % 128 = n % 128 := by omega
      rw [hmod, ih (n / 128) (Nat.div_lt_self (by omega) (by norm_num)) _ _ _ rest
        (by omega) hdiv]
      rw [Nat.lor_assoc, shiftLeft_lor_split]

lemma readUvarint_putUvarint (n : Nat) (rest : List Nat) (hn : n < 2 ^ 64) :
    readUvarint (putUvarint n ++ rest) = .ok (n, rest) := by
  rw [readUvarint, readUvarintAux_putUvarint n 0 0 0 rest (by omega) (by simpa using hn)]
  rw [Nat.shiftLeft_zero]
  norm_num

/-! ## Helper lemmas: reads and the compression step -/

lemma goRead_append (l r : List Nat) (h : l ++ r ≠ []) :
    goRead l.length (l ++ r) = .ok (l, r) := by
  rw [goRead.eq_def]
  split
  · next heq => exact absurd heq h
  · next =>
    have hmin : min l.length (l ++ r).length = l.length := by
      rw [List.length_append]; omega
    show Except.ok (List.take (min l.length (l ++ r).length) (l ++ r) ++
        List.replicate (l.length - min l.length (l ++ r).length) 0,
        List.drop (min l.length (l ++ r).length) (l ++ r)) = Except.ok (l, r)
    rw [hmin, List.take_left, List.drop_left, Nat.sub_self]
    simp

lemma goRead_self (l : List Nat) (h : l ≠ []) :
    goRead l.length l = .ok (l, []) := by
  have := goRead_append l [] (by simpa using h)
  simpa using this

lemma kvCompressPart_none (x : List Nat) : kvCompressPart none x = (x, false) := rfl

lemma kvCompressPart_length_le (c : Option (List Nat → List Nat)) (x : List Nat) :
    (kvCompressPart c x).1.length ≤ x.length := by
  cases c with
  | none => exact Nat.le_refl _
  | some f =>
    show (if (f x).length < x.length then (f x, true) else (x, false)).1.length ≤ x.length
    by_cases h : (f x).length < x.length
    · rw [if_pos h]; exact Nat.le_of_lt h
    · rw [if_neg h]

lemma kvCompressPart_of_true (c : List Nat → List Nat) (x : List Nat)
    (h : (kvCompressPart (some c) x).2 = true) :
    (kvCompressPart (some c) x).1 = c x := by
  by_cases hlt : (c x).length < x.length
  · show (if (c x).length < x.length then (c x, true) else (x, false)).1 = c x
    rw [if_pos hlt]
  · have h2 : (kvCompressPart (some c) x).2 = false := by
      show (if (c x).length < x.length then (c x, true) else (x, false)).2 = false
      rw [if_neg hlt]
    rw [h2] at h
    exact absurd h (by simp)

lemma kvCompressPart_of_false (c : Option (List Nat → List Nat)) (x : List Nat)
    (h : (kvCompressPart c x).2 = false) :
    (kvCompressPart c x).1 = x := by
  cases c with
  | none => rfl
  | some f =>
    by_cases hlt : (f x).length < x.length
    · have h2 : (kvCompressPart (some f) x).2 = true := by
        show (if (f x).length < x.length then (f x, true) else (x, false)).2 = true
        rw [if_pos hlt]
      rw [h2] at h
      exact absurd h (by simp)
    · show (if (f x).length < x.length then (f x, true) else (x, false)).1 = x
      rw [if_neg hlt]

/-! ## Helper lemma: decoding a well-formed marshalled frame -/

lemma kvUnmarshal_frame (flag pl : Nat) (prevKey k1 v1 keyF valF : List Nat)
    (dec : Option (List Nat → Except Unit (List Nat)))
    (hk64 : k1.length < 2 ^ 64) (hv64 : v1.length < 2 ^ 64)
    (hv1 : v1 ≠ [])
    (hpl : pl ≤ prevKey.length)
    (hdf : ¬ (dec.isNone ∧ (flag &&& KVKeyCompressed ≠ 0 ∨ flag &&& KVValueCompressed ≠ 0)))
    (hkeyF : if flag &&& KVKeyCompressed ≠ 0
             then ∃ f, dec = some f ∧ f k1 = .ok keyF else keyF = k1)
    (hvalF : if flag &&& KVValueCompressed ≠ 0
             then ∃ f, dec = some f ∧ f v1 = .ok valF else valF = v1)
    (hlen : ¬ (([flag] ++ (if flag &&& KVKeyPrefixed ≠ 0 then [pl] else []) ++
        putUvarint k1.length ++ k1 ++ putUvarint v1.length ++ v1).length < minKVSize)) :
    kvUnmarshal (some ([flag] ++ (if flag &&& KVKeyPrefixed ≠ 0 then [pl] else []) ++
        putUvarint k1.length ++ k1 ++ putUvarint v1.length ++ v1)) prevKey dec
      = .ok ⟨(if flag &&& KVKeyPrefixed ≠ 0 then prevKey.take pl else []) ++ keyF, valF⟩ := by
  have hbody : readUvarint (putUvarint k1.length ++ k1 ++ putUvarint v1.length ++ v1)
      = .ok (k1.length, k1 ++ (putUvarint v1.length ++ v1)) := by
    rw [List.append_assoc, List.append_assoc,
      readUvarint_putUvarint k1.length (k1 ++ (putUvarint v1.length ++ v1)) hk64]
  have hkread : goRead k1.length (k1 ++ (putUvarint v1.length ++ v1))
      = .ok (k1, putUvarint v1.length ++ v1) := by
    apply goRead_append
    simp [putUvarint_ne_nil]
  have hvlen : readUvarint (putUvarint v1.length ++ v1) = .ok (v1.length, v1) :=
    readUvarint_putUvarint v1.length v1 hv64
  have hvread : goRead v1.length v1 = .ok (v1, []) := goRead_self v1 hv1
  rw [kvUnmarshal]
  rw [if_neg hlen]
  by_cases hb1 : flag &&& KVKeyPrefixed ≠ 0
  · have hD : ([flag] ++ (if flag &&& KVKeyPrefixed ≠ 0 then [pl] else []) ++
        putUvarint k1.length ++ k1 ++ putUvarint v1.length ++ v1)
        = flag :: pl :: (putUvarint k1.length ++ k1 ++ putUvarint v1.length ++ v1) := by
      rw [if_pos hb1]
      simp
    rw [hD]
    simp only [List.headD_cons, List.tail_cons]
    simp only [if_pos hb1, if_neg (Nat.not_lt.mpr hpl), if_neg hdf, hbody, hkread,
      hvlen, hvread]
    by_cases hb2 : flag &&& KVKeyCompressed ≠ 0
    · rw [if_pos hb2] at hkeyF
      obtain ⟨f, hfdec, hf⟩ := hkeyF
      subst hfdec
      simp only [if_pos hb2, hf]
      by_cases hb4 : flag &&& KVValueCompressed ≠ 0
      · rw [if_pos hb4] at hvalF
        obtain ⟨g, hgdec, hg⟩ := hvalF
        rw [← (Option.some.injEq _ _).mp hgdec] at hg
        simp only [if_pos hb4, hg]
      · rw [if_neg hb4] at hvalF
        simp only [if_neg hb4, hvalF]
    · rw [if_neg hb2] at hkeyF
      simp only [if_neg hb2, hkeyF]
      by_cases hb4 : flag &&& KVValueCompressed ≠ 0
      · rw [if_pos hb4] at hvalF
        obtain ⟨g, hgdec, hg⟩ := hvalF
        subst hgdec
        simp only [if_pos hb4, hg]
      · rw [if_neg hb4] at hvalF
        simp only [if_neg hb4, hvalF]
  · have hD : ([flag] ++ (if flag &&& KVKeyPrefixed ≠ 0 then [pl] else []) ++
        putUvarint k1.length ++ k1 ++ putUvarint v1.length ++ v1)
        = flag :: (putUvarint k1.length ++ k1 ++ putUvarint v1.length ++ v1) := by
      rw [if_neg hb1]
      simp
    rw [hD]
    simp only [List.headD_cons, List.tail_cons]
    simp only [if_neg hb1, if_neg hdf, hbody, hkread, hvlen, hvread]
    by_cases hb2 : flag &&& KVKeyCompressed ≠ 0
    · rw [if_pos hb2] at hkeyF
      obtain ⟨f, hfdec, hf⟩ := hkeyF
      subst hfdec
      simp only [if_pos hb2, hf]
      by_cases hb4 : flag &&& KVValueCompressed ≠ 0
      · rw [if_pos hb4] at hvalF
        obtain ⟨g, hgdec, hg⟩ := hvalF
        rw [← (Option.some.injEq _ _).mp hgdec] at hg
        simp only [if_pos hb4, hg]
      · rw [if_neg hb4] at hvalF
        simp only [if_neg hb4, hvalF]
    · rw [if_neg hb2] at hkeyF
      simp only [if_neg hb2, hkeyF]
      by_cases hb4 : flag &&& KVValueCompressed ≠ 0
      · rw [if_pos hb4] at hvalF
        obtain ⟨g, hgdec, hg⟩ := hvalF
        subst hgdec
        simp only [if_pos hb4, hg]
      · rw [if_neg hb4] at hvalF
        simp only [if_neg hb4, hvalF]

/-- Variant of `kvUnmarshal_frame` whose frame shape is indexed by the
three flag booleans, linked to the flag byte by the bit equivalences. -/
lemma kvUnmarshal_frame2 (flag pl : Nat) (p kc vc : Bool)
    (prevKey k1 v1 keyF valF : List Nat)
    (dec : Option (List Nat → Except Unit (List Nat)))
    (hk64 : k1.length < 2 ^ 64) (hv64 : v1.length < 2 ^ 64)
    (hv1 : v1 ≠ []) (hpl : pl ≤ prevKey.length)
    (hf1 : (flag &&& KVKeyPrefixed ≠ 0) ↔ p = true)
    (hf2 : (flag &&& KVKeyCompressed ≠ 0) ↔ kc = true)
    (hf4 : (flag &&& KVValueCompressed ≠ 0) ↔ vc = true)
    (hdf : ¬ (dec.isNone ∧ (kc = true ∨ vc = true)))
    (hkeyF : if kc then ∃ f, dec = some f ∧ f k1 = .ok keyF else keyF = k1)
    (hvalF : if vc then ∃ f, dec = some f ∧ f v1 = .ok valF else valF = v1)
    (hlen : ¬ (([flag] ++ (if p then [pl] else []) ++ putUvarint k1.length ++ k1 ++
        putUvarint v1.length ++ v1).length < minKVSize)) :
    kvUnmarshal (some ([flag] ++ (if p then [pl] else []) ++ putUvarint k1.length ++ k1 ++
        putUvarint v1.length ++ v1)) prevKey dec
      = .ok ⟨(if p then prevKey.take pl else []) ++ keyF, valF⟩ := by
  have e1 : ((if p then [pl] else []) : List Nat)
      = (if flag &&& KVKeyPrefixed ≠ 0 then [pl] else []) := by
    by_cases hp : p = true
    · rw [if_pos hp, if_pos (hf1.mpr hp)]
    · rw [if_neg (by simpa using hp), if_neg (fun hcon => hp (hf1.mp hcon))]
  have e2 : ((if p then prevKey.take pl else []) : List Nat)
      = (if flag &&& KVKeyPrefixed ≠ 0 then prevKey.take pl else []) := by
    by_cases hp : p = true
    · rw [if_pos hp, if_pos (hf1.mpr hp)]
    · rw [if_neg (by simpa using hp), if_neg (fun hcon => hp (hf1.mp hcon))]
  have e3 : ∀ (a : Prop) (b : List Nat),
      (if kc then a else keyF = k1) → (if flag &&& KVKeyCompressed ≠ 0 then a else keyF = k1) := by
    intro a b h
    by_cases hk : flag &&& KVKeyCompressed ≠ 0
    · rw [if_pos hk]
      rw [if_pos (hf2.mp hk)] at h
      exact h
    · rw [if_neg hk]
      rw [if_neg (by intro hkc; exact hk (hf2.mpr hkc))] at h
      exact h
  have e4 : ∀ (a : Prop),
      (if vc then a else valF = v1) → (if flag &&& KVValueCompressed ≠ 0 then a else valF = v1) := by
    intro a h
    by_cases hv : flag &&& KVValueCompressed ≠ 0
    · rw [if_pos hv]
      rw [if_pos (hf4.mp hv)] at h
      exact h
    · rw [if_neg hv]
      rw [if_neg (by intro hvc; exact hv (hf4.mpr hvc))] at h
      exact h
  have hdf2 : ¬ (dec.isNone ∧ (flag &&& KVKeyCompressed ≠ 0 ∨ flag &&& KVValueCompressed ≠ 0)) := by
    rintro ⟨hn, hor | hor⟩
    · exact hdf ⟨hn, Or.inl (hf2.mp hor)⟩
    · exact hdf ⟨hn, Or.inr (hf4.mp hor)⟩
  rw [e1] at hlen ⊢
  rw [e2]
  exact kvUnmarshal_frame flag pl prevKey k1 v1 keyF valF dec hk64 hv64 hv1 hpl hdf2
    (e3 _ [] hkeyF) (e4 _ hvalF) hlen

/-! ## Claim C1: codec round trip -/

/-- C1 (amended): decoding an encoded record round-trips — for every
key/value pair, every previous key, and either no compression backend
or a matching compressor/decompressor pair, `KVPair.Unmarshal` applied
to the output of `KVPair.Marshal` succeeds and reconstructs the
original key and value — provided the encoded record is at least
`minKVSize` (5) bytes long and its encoded value field is non-empty
(and lengths stay inside Go's 64-bit integer range).  Dropping either
proviso makes the claim false, see `c1_roundtrip_counterexample`. -/
theorem c1_marshal_unmarshal_roundtrip (kv : KVPair) (prevKey : List Nat)
    (comp : Option (List Nat → List Nat))
    (dec : Option (List Nat → Except Unit (List Nat)))
    (hpair : (comp = none ∧ dec = none) ∨
      (∃ c f, comp = some c ∧ dec = some f ∧ ∀ x, f (c x) = Except.ok x))
    (hk64 : kv.Key.length < 2 ^ 64) (hv64 : kv.Value.length < 2 ^ 64)
    (hvne : (kvCompressPart comp kv.Value).1 ≠ [])
    (hbuf : minKVSize ≤ (kvMarshal kv prevKey comp).length) :
    kvUnmarshal (some (kvMarshal kv prevKey comp)) prevKey dec = .ok kv := by
  have hple0 := getCommonPrefix_le_left prevKey kv.Key
  have htake0 := take_getCommonPrefix prevKey kv.Key
  generalize hPL : getCommonPrefix prevKey kv.Key = pl at hple0 htake0
  have hKey : (if decide (0 < pl) then prevKey.take pl else []) ++ kv.Key.drop pl = kv.Key := by
    by_cases hp : 0 < pl
    · rw [if_pos (decide_eq_true hp), htake0, List.take_append_drop]
    · have h0 : pl = 0 := by omega
      rw [if_neg (by simpa using hp), h0, List.drop_zero, List.nil_append]
  have hk64d : ∀ co : Option (List Nat → List Nat),
      (kvCompressPart co (kv.Key.drop pl)).1.length < 2 ^ 64 := by
    intro co
    refine lt_of_le_of_lt (le_trans (kvCompressPart_length_le co _) ?_) hk64
    rw [List.length_drop]
    omega
  have hv64d : ∀ co : Option (List Nat → List Nat),
      (kvCompressPart co kv.Value).1.length < 2 ^ 64 := by
    intro co
    exact lt_of_le_of_lt (kvCompressPart_length_le co _) hv64
  rcases hpair with ⟨hcn, hdn⟩ | ⟨c, f, hcn, hdn, hinv⟩
  · subst hcn
    subst hdn
    have hM : kvMarshal kv prevKey none =
        [if 0 < pl then 0 ||| KVKeyPrefixed else 0] ++
        (if decide (0 < pl) then [pl] else []) ++
        putUvarint (kv.Key.drop pl).length ++ kv.Key.drop pl ++
        putUvarint kv.Value.length ++ kv.Value := by
      simp [kvMarshal, kvCompressPart_none, hPL]
    have hlen2 := Nat.not_lt.mpr hbuf
    rw [hM] at hlen2 ⊢
    have hres := kvUnmarshal_frame2 (if 0 < pl then 0 ||| KVKeyPrefixed else 0) pl
      (decide (0 < pl)) false false prevKey (kv.Key.drop pl) kv.Value
      (kv.Key.drop pl) kv.Value none
      (by rw [List.length_drop]; omega) hv64 hvne hple0
      (by
        by_cases hp : 0 < pl
        · rw [if_pos hp, decide_eq_true hp]
          exact iff_of_true (by decide) rfl
        · rw [if_neg hp, decide_eq_false hp]
          exact iff_of_false (by decide) (by simp))
      (by
        by_cases hp : 0 < pl
        · rw [if_pos hp]; exact iff_of_false (by decide) (by simp)
        · rw [if_neg hp]; exact iff_of_false (by decide) (by simp))
      (by
        by_cases hp : 0 < pl
        · rw [if_pos hp]; exact iff_of_false (by decide) (by simp)
        · rw [if_neg hp]; exact iff_of_false (by decide) (by simp))
      (by simp) (by rw [if_neg (by simp)]) (by rw [if_neg (by simp)]) hlen2
    rw [hKey] at hres
    exact hres
  · subst hcn
    subst hdn
    have hb1 : ∀ flag : Nat, (flag &&& KVKeyPrefixed ≠ 0 ↔ decide (0 < pl) = true) →
        True := fun _ _ => trivial
    cases hK2 : (kvCompressPart (some c) (kv.Key.drop pl)).2 <;>
      cases hV2 : (kvCompressPart (some c) kv.Value).2
    · -- no compression adopted on either field
      have hM : kvMarshal kv prevKey (some c) =
          [if 0 < pl then 0 ||| KVKeyPrefixed else 0] ++
          (if decide (0 < pl) then [pl] else []) ++
          putUvarint (kvCompressPart (some c) (kv.Key.drop pl)).1.length ++
          (kvCompressPart (some c) (kv.Key.drop pl)).1 ++
          putUvarint (kvCompressPart (some c) kv.Value).1.length ++
          (kvCompressPart (some c) kv.Value).1 := by
        simp [kvMarshal, hPL, hK2, hV2]
      have hlen2 := Nat.not_lt.mpr hbuf
      rw [hM] at hlen2 ⊢
      have hres := kvUnmarshal_frame2 (if 0 < pl then 0 ||| KVKeyPrefixed else 0) pl
        (decide (0 < pl)) false false prevKey
        (kvCompressPart (some c) (kv.Key.drop pl)).1 (kvCompressPart (some c) kv.Value).1
        (kv.Key.drop pl) kv.Value (some f) (hk64d (some c)) (hv64d (some c)) hvne hple0
        (by
          by_cases hp : 0 < pl
          · rw [if_pos hp, decide_eq_true hp]
            exact iff_of_true (by decide) rfl
          · rw [if_neg hp, decide_eq_false hp]
            exact iff_of_false (by decide) (by simp))
        (by
          by_cases hp : 0 < pl
          · rw [if_pos hp]; exact iff_of_false (by decide) (by simp)
          · rw [if_neg hp]; exact iff_of_false (by decide) (by simp))
        (by
          by_cases hp : 0 < pl
          · rw [if_pos hp]; exact iff_of_false (by decide) (by simp)
          · rw [if_neg hp]; exact iff_of_false (by decide) (by simp))
        (by simp)
        (by rw [if_neg (by simp)]; exact (kvCompressPart_of_false (some c) _ hK2).symm)
        (by rw [if_neg (by simp)]; exact (kvCompressPart_of_false (some c) _ hV2).symm)
        hlen2
      rw [hKey] at hres
      exact hres
    · -- value compressed only
      have hM : kvMarshal kv prevKey (some c) =
          [(if 0 < pl then 0 ||| KVKeyPrefixed else 0) ||| KVValueCompressed] ++
          (if decide (0 < pl) then [pl] else []) ++
          putUvarint (kvCompressPart (some c) (kv.Key.drop pl)).1.length ++
          (kvCompressPart (some c) (kv.Key.drop pl)).1 ++
          putUvarint (kvCompressPart (some c) kv.Value).1.length ++
          (kvCompressPart (some c) kv.Value).1 := by
        simp [kvMarshal, hPL, hK2, hV2]
      have hlen2 := Nat.not_lt.mpr hbuf
      rw [hM] at hlen2 ⊢
      have hres := kvUnmarshal_frame2
        ((if 0 < pl then 0 ||| KVKeyPrefixed else 0) ||| KVValueCompressed) pl
        (decide (0 < pl)) false true prevKey
        (kvCompressPart (some c) (kv.Key.drop pl)).1 (kvCompressPart (some c) kv.Value).1
        (kv.Key.drop pl) kv.Value (some f) (hk64d (some c)) (hv64d (some c)) hvne hple0
        (by
          by_cases hp : 0 < pl
          · rw [if_pos hp, decide_eq_true hp]
            exact iff_of_true (by decide) rfl
          · rw [if_neg hp, decide_eq_false hp]
            exact iff_of_false (by decide) (by simp))
        (by
          by_cases hp : 0 < pl
          · rw [if_pos hp]; exact iff_of_false (by decide) (by simp)
          · rw [if_neg hp]; exact iff_of_false (by decide) (by simp))
        (by
          by_cases hp : 0 < pl
          · rw [if_pos hp]; exact iff_of_true (by decide) rfl
          · rw [if_neg hp]; exact iff_of_true (by decide) rfl)
        (by simp)
        (by rw [if_neg (by simp)]; exact (kvCompressPart_of_false (some c) _ hK2).symm)
        (by
          rw [if_pos rfl]
          exact ⟨f, rfl, by rw [kvCompressPart_of_true c _ hV2]; exact hinv _⟩)
        hlen2
      rw [hKey] at hres
      exact hres
    · -- key compressed only
      have hM : kvMarshal kv prevKey (some c) =
          [(if 0 < pl then 0 ||| KVKeyPrefixed else 0) ||| KVKeyCompressed] ++
          (if decide (0 < pl) then [pl] else []) ++
          putUvarint (kvCompressPart (some c) (kv.Key.drop pl)).1.length ++
          (kvCompressPart (some c) (kv.Key.drop pl)).1 ++
          putUvarint (kvCompressPart (some c) kv.Value).1.length ++
          (kvCompressPart (some c) kv.Value).1 := by
        simp [kvMarshal, hPL, hK2, hV2]
      have hlen2 := Nat.not_lt.mpr hbuf
      rw [hM] at hlen2 ⊢
      have hres := kvUnmarshal_frame2
        ((if 0 < pl then 0 ||| KVKeyPrefixed else 0) ||| KVKeyCompressed) pl
        (decide (0 < pl)) true false prevKey
        (kvCompressPart (some c) (kv.Key.drop pl)).1 (kvCompressPart (some c) kv.Value).1
        (kv.Key.drop pl) kv.Value (some f) (hk64d (some c)) (hv64d (some c)) hvne hple0
        (by
          by_cases hp : 0 < pl
          · rw [if_pos hp, decide_eq_true hp]
            exact iff_of_true (by decide) rfl
          · rw [if_neg hp, decide_eq_false hp]
            exact iff_of_false (by decide) (by simp))
        (by
          by_cases hp : 0 < pl
          · rw [if_pos hp]; exact iff_of_true (by decide) rfl
          · rw [if_neg hp]; exact iff_of_true (by decide) rfl)
        (by
          by_cases hp : 0 < pl
          · rw [if_pos hp]; exact iff_of_false (by decide) (by simp)
          · rw [if_neg hp]; exact iff_of_false (by decide) (by simp))
        (by simp)
        (by
          rw [if_pos rfl]
          exact ⟨f, rfl, by rw [kvCompressPart_of_true c _ hK2]; exact hinv _⟩)
        (by rw [if_neg (by simp)]; exact (kvCompressPart_of_false (some c) _ hV2).symm)
        hlen2
      rw [hKey] at hres
      exact hres
    · -- both fields compressed
      have hM : kvMarshal kv prevKey (some c) =
          [((if 0 < pl then 0 ||| KVKeyPrefixed else 0) ||| KVKeyCompressed) |||
            KVValueCompressed] ++
          (if decide (0 < pl) then [pl] else []) ++
          putUvarint (kvCompressPart (some c) (kv.Key.drop pl)).1.length ++
          (kvCompressPart (some c) (kv.Key.drop pl)).1 ++
          putUvarint (kvCompressPart (some c) kv.Value).1.length ++
          (kvCompressPart (some c) kv.Value).1 := by
        simp [kvMarshal, hPL, hK2, hV2]
      have hlen2 := Nat.not_lt.mpr hbuf
      rw [hM] at hlen2 ⊢
      have hres := kvUnmarshal_frame2
        (((if 0 < pl then 0 ||| KVKeyPrefixed else 0) ||| KVKeyCompressed) |||
          KVValueCompressed) pl
        (decide (0 < pl)) true true prevKey
        (kvCompressPart (some c) (kv.Key.drop pl)).1 (kvCompressPart (some c) kv.Value).1
        (kv.Key.drop pl) kv.Value (some f) (hk64d (some c)) (hv64d (some c)) hvne hple0
        (by
          by_cases hp : 0 < pl
          · rw [if_pos hp, decide_eq_true hp]
            exact iff_of_true (by decide) rfl
          · rw [if_neg hp, decide_eq_false hp]
            exact iff_of_false (by decide) (by simp))
        (by
          by_cases hp : 0 < pl
          · rw [if_pos hp]; exact iff_of_true (by decide) rfl
          · rw [if_neg hp]; exact iff_of_true (by decide) rfl)
        (by
          by_cases hp : 0 < pl
          · rw [if_pos hp]; exact iff_of_true (by decide) rfl
          · rw [if_neg hp]; exact iff_of_true (by decide) rfl)
        (by simp)
        (by
          rw [if_pos rfl]
          exact ⟨f, rfl, by rw [kvCompressPart_of_true c _ hK2]; exact hinv _⟩)
        (by
          rw [if_pos rfl]
          exact ⟨f, rfl, by rw [kvCompressPart_of_true c _ hV2]; exact hinv _⟩)
        hlen2
      rw [hKey] at hres
      exact hres

/-- C1 counterexample: at the empty key/value pair with empty previous
key and no backend, the encoding is `[0, 0, 0]` (3 bytes), which
`Unmarshal` rejects with the minimum-size error instead of
round-tripping — refuting the claim as stated. -/
theorem c1_roundtrip_counterexample :
    kvUnmarshal (some (kvMarshal ⟨[], []⟩ [] none)) [] none = .error .truncated ∧
    kvUnmarshal (some (kvMarshal ⟨[], []⟩ [] none)) [] none ≠
      .ok (⟨[], []⟩ : KVPair) := by
  have h : kvUnmarshal (some (kvMarshal ⟨[], []⟩ [] none)) [] none = .error .truncated := by
    simp [kvMarshal, kvUnmarshal, getCommonPrefix, kvCompressPart, putUvarint, minKVSize]
  refine ⟨h, ?_⟩
  rw [h]
  simp

/-- C1 witness: the amended round trip at a concrete input. -/
theorem c1_marshal_unmarshal_roundtrip_witness :
    kvUnmarshal (some (kvMarshal ⟨[1], [2]⟩ [] none)) [] none = .ok ⟨[1], [2]⟩ :=
  c1_marshal_unmarshal_roundtrip ⟨[1], [2]⟩ [] none none (Or.inl ⟨rfl, rfl⟩)
    (by norm_num) (by norm_num) (by decide)
    (by simp [kvMarshal, getCommonPrefix, kvCompressPart, putUvarint, minKVSize])

/-! ## Claim C2: grow sizing -/

/-- C2 (amended): `grow` is a no-op for a requested size at or below
the current tracked file size; otherwise, while the mapped data size is
below the allocation threshold it grows the file to the current mapped
data size (`db.datasz`), not to the requested size; and once the mapped
data size is at or above the threshold it grows to the requested size
plus the fixed chunk (`allocSize = AllocPages * pageSize`). -/
theorem c2_grow_amended (filesz datasz allocSize sz : Nat) :
    (sz ≤ filesz → grow filesz datasz allocSize sz = filesz) ∧
    (filesz < sz → datasz < allocSize → grow filesz datasz allocSize sz = datasz) ∧
    (filesz < sz → allocSize ≤ datasz → grow filesz datasz allocSize sz = sz + allocSize) := by
  refine ⟨?_, ?_, ?_⟩
  · intro h1
    rw [grow, if_pos h1]
  · intro h1 h2
    rw [grow, if_neg (by omega), if_pos h2]
  · intro h1 h2
    rw [grow, if_neg (by omega), if_neg (by omega)]

/-- C2 counterexample: a file of size 100 with 16384 bytes mapped and a
32768-byte threshold, asked to grow to 200, is grown to 16384 — not to
the requested 200 the claim promises for the below-threshold case. -/
theorem c2_grow_counterexample :
    grow 100 16384 32768 200 = 16384 ∧ grow 100 16384 32768 200 ≠ 200 := by
  decide

/-- C2 witness: the amended statement at concrete sizes. -/
theorem c2_grow_witness :
    grow 100 16384 32768 50 = 100 ∧
    grow 100 16384 32768 200 = 16384 ∧
    grow 100 40000 32768 200 = 200 + 32768 :=
  ⟨(c2_grow_amended 100 16384 32768 50).1 (by decide),
   (c2_grow_amended 100 16384 32768 200).2.1 (by decide) (by decide),
   (c2_grow_amended 100 40000 32768 200).2.2 (by decide) (by decide)⟩

/-! ## Claim C4: truncated key/value payloads -/

/-- C4 (the code at the claim's failing input): the buffer
`[0x00, 0x01, 0x41, 0x05, 0x42]` passes the flag/prefix checks and
declares a 5-byte value but supplies only one value byte; `Unmarshal`
nevertheless SUCCEEDS, returning the value zero-padded to the declared
length, because the Go code checks only the error of `bytes.Reader.Read`
(which reports none on a short read) instead of using `io.ReadFull`.
A buffer short on KEY bytes does fail, but only because the subsequent
value-length read then hits end-of-input. -/
theorem c4_short_value_zero_padded :
    kvUnmarshal (some [0, 1, 65, 5, 66]) [] none = .ok ⟨[65], [66, 0, 0, 0, 0]⟩ ∧
    kvUnmarshal (some [0, 5, 65, 66, 67]) [] none = .error (.valLen .eof) := by
  constructor
  · simp [kvUnmarshal, readUvarint, readUvarintAux, goRead, minKVSize,
      KVKeyPrefixed, KVKeyCompressed, KVValueCompressed, List.replicate]
  · simp [kvUnmarshal, readUvarint, readUvarintAux, goRead, minKVSize,
      KVKeyPrefixed, KVKeyCompressed, KVValueCompressed, List.replicate]

/-! ## Claim C5: empty and undersized inputs -/

/-- C5 (amended): `Unmarshal` fails with the empty-input error exactly
for a `nil` slice; every non-nil buffer shorter than `minKVSize` — the
non-nil empty buffer included — fails with the truncation error
instead. -/
theorem c5_unmarshal_small_inputs (prevKey : List Nat)
    (dec : Option (List Nat → Except Unit (List Nat))) :
    kvUnmarshal none prevKey dec = .error .empty ∧
    (∀ l : List Nat, l.length < minKVSize →
      kvUnmarshal (some l) prevKey dec = .error .truncated) := by
  constructor
  · rfl
  · intro l hl
    rw [kvUnmarshal, if_pos hl]

/-- C5 counterexample: the non-nil empty buffer is rejected with the
truncation error, not with the empty-input error the claim requires
for every empty input. -/
theorem c5_empty_buffer_counterexample :
    kvUnmarshal (some []) [] none = .error .truncated ∧
    kvUnmarshal (some []) [] none ≠ .error .empty := by
  have h : kvUnmarshal (some []) [] none = .error .truncated := by
    rw [kvUnmarshal, if_pos (by decide)]
  refine ⟨h, ?_⟩
  rw [h]
  simp

/-- C5 witness: the amended statement at concrete inputs. -/
theorem c5_unmarshal_small_inputs_witness :
    kvUnmarshal none [] none = .error .empty ∧
    kvUnmarshal (some [1, 2]) [] none = .error .truncated :=
  ⟨(c5_unmarshal_small_inputs [] none).1,
   (c5_unmarshal_small_inputs [] none).2 [1, 2] (by decide)⟩

/-! ## Claim C7: common-prefix computation -/

/-- C7 (amended): `getCommonPrefix` returns 0 when either input is
empty; when one input is a prefix of the other it returns
`min(len(a), len(b))` CAPPED AT 255 (the uncapped claim fails for
shared stems of 256 bytes or more, see the counterexample); swapping
the arguments does not change the result; inputs sharing at least 255
leading bytes yield exactly 255; and the result never exceeds 255. -/
theorem c7_getCommonPrefix_amended (a b : List Nat) :
    ((a = [] ∨ b = []) → getCommonPrefix a b = 0) ∧
    ((a <+: b ∨ b <+: a) →
      getCommonPrefix a b = min (min a.length b.length) 255) ∧
    ((a <+: b ∨ b <+: a) → getCommonPrefix a b = getCommonPrefix b a) ∧
    ((255 ≤ a.length ∧ a.take 255 = b.take 255) → getCommonPrefix a b = 255) ∧
    getCommonPrefix a b ≤ 255 := by
  refine ⟨?_, ?_, ?_, ?_, getCommonPrefix_le_255 a b⟩
  · intro h
    rw [getCommonPrefix, if_pos h]
  · intro h
    rw [getCommonPrefix_eq_min]
    rcases h with ⟨t, rfl⟩ | ⟨t, rfl⟩
    · rw [cpl_self_append, List.length_append]
      omega
    · rw [cpl_comm, cpl_self_append, List.length_append]
      omega
  · intro _
    rw [getCommonPrefix_eq_min, getCommonPrefix_eq_min, cpl_comm]
  · rintro ⟨hlen, htake⟩
    rw [getCommonPrefix_eq_min]
    have h255 : 255 ≤ cpl a b := cpl_ge_of_take a b 255 hlen htake
    omega

/-- C7 counterexample: two identical 256-byte inputs — each trivially a
prefix of the other with `min` of lengths 256 — share a common stem of
length 256, yet `getCommonPrefix` returns the cap 255, refuting the
uncapped `min(len(a), len(b))` clause. -/
theorem c7_getCommonPrefix_counterexample :
    List.replicate 256 (0 : Nat) <+: List.replicate 256 (0 : Nat) ∧
    min (List.replicate 256 (0 : Nat)).length (List.replicate 256 (0 : Nat)).length = 256 ∧
    getCommonPrefix (List.replicate 256 0) (List.replicate 256 0) = 255 := by
  refine ⟨⟨[], List.append_nil _⟩, by rw [List.length_replicate]; exact Nat.min_self 256, ?_⟩
  rw [getCommonPrefix_eq_min]
  have h : cpl (List.replicate 256 (0 : Nat)) (List.replicate 256 (0 : Nat)) = 256 := by
    have h2 := cpl_self_append (List.replicate 256 (0 : Nat)) []
    rw [List.append_nil, List.length_replicate] at h2
    exact h2
  rw [h]
  omega

/-- C7 witness: the amended statement at concrete inputs. -/
theorem c7_getCommonPrefix_witness :
    getCommonPrefix [1] [1, 2] = min (min ([1] : List Nat).length ([1, 2] : List Nat).length) 255 ∧
    getCommonPrefix ([] : List Nat) [5] = 0 :=
  ⟨(c7_getCommonPrefix_amended [1] [1, 2]).2.1 (Or.inl ⟨[2], rfl⟩),
   (c7_getCommonPrefix_amended [] [5]).1 (Or.inl rfl)⟩

/-! ## Claim C3: Open failure cleanup -/

/-- C3 (the code at the claim's failing inputs): when `os.OpenFile` and
`flock` succeed but `Stat` fails — or the file is empty and `init`
fails — `Open` returns the error WITHOUT calling `db.close()`, leaving
the file descriptor open and the advisory lock held; the claim that
every failure path runs the cleanup is refuted.  The flock- and
mmap-failure paths, by contrast, do clean up. -/
theorem c3_open_leaks_on_stat_or_init_failure :
    openModel ⟨true, false, true, true, false, false, true, true⟩ false
      = ⟨false, true, true⟩ ∧
    openModel ⟨true, false, true, true, true, true, false, true⟩ false
      = ⟨false, true, true⟩ ∧
    openModel ⟨true, false, true, false, true, false, true, true⟩ false
      = ⟨false, false, false⟩ ∧
    openModel ⟨true, false, true, true, true, false, true, false⟩ false
      = ⟨false, false, false⟩ := by
  decide

/-! ## Claim C9: advisory lock acquisition -/

/-- C9: `flock` requests a non-blocking exclusive lock in write mode
and a non-blocking shared lock in read-only mode; a syscall success
yields `nil`; `EWOULDBLOCK`/`EAGAIN` yield the sentinel
`ErrWriteByOther`; every other errno is wrapped into a generic error
distinct from the sentinel. -/
theorem c9_flock_dispatch (ro : Bool) (o : FlockOutcome) :
    (ro = false → flockFlag ro = LOCK_EX ||| LOCK_NB) ∧
    (ro = true → flockFlag ro = LOCK_SH ||| LOCK_NB) ∧
    (o = .ok → flockResult o = .ok ()) ∧
    (∀ e, o = .errno e →
      ((e = EWOULDBLOCK ∨ e = EAGAIN) → flockResult o = .error .writeByOther) ∧
      (¬ (e = EWOULDBLOCK ∨ e = EAGAIN) →
        flockResult o = .error (.wrapped e) ∧
        FlockErr.wrapped e ≠ FlockErr.writeByOther)) := by
  refine ⟨?_, ?_, ?_, ?_⟩
  · rintro rfl; rfl
  · rintro rfl; rfl
  · rintro rfl; rfl
  · rintro e rfl
    constructor
    · intro he
      show (if e = EWOULDBLOCK ∨ e = EAGAIN then Except.error FlockErr.writeByOther
          else Except.error (FlockErr.wrapped e)) = Except.error FlockErr.writeByOther
      rw [if_pos he]
    · intro he
      refine ⟨?_, by simp⟩
      show (if e = EWOULDBLOCK ∨ e = EAGAIN then Except.error FlockErr.writeByOther
          else Except.error (FlockErr.wrapped e)) = Except.error (FlockErr.wrapped e)
      rw [if_neg he]

/-- C9 witness: the dispatch at concrete outcomes. -/
theorem c9_flock_dispatch_witness :
    flockFlag false = LOCK_EX ||| LOCK_NB ∧
    flockResult (.errno 11) = .error .writeByOther ∧
    flockResult (.errno 13) = .error (.wrapped 13) :=
  ⟨(c9_flock_dispatch false (.errno 11)).1 rfl,
   ((c9_flock_dispatch false (.errno 11)).2.2.2 11 rfl).1 (Or.inl rfl),
   (((c9_flock_dispatch false (.errno 13)).2.2.2 13 rfl).2 (by decide)).1⟩

/-! ## Claim C10: default compression on Open -/

/-- C10: with `nil` options or `DefaultOptions`, the handle's
compression algorithm is the zero value of `CompressAlgorithm`
(`CompNone` in the current source), no compressor or decompressor
function is installed, and a record marshalled without a compressor
never carries a compressed-key or compressed-value flag bit. -/
theorem c10_default_compression :
    openCompression none = CompNone ∧
    openCompression (some DefaultOptions) = CompNone ∧
    openBackends none = (none, none) ∧
    openBackends (some DefaultOptions) = (none, none) ∧
    (∀ (kv : KVPair) (prevKey : List Nat),
      (kvMarshal kv prevKey none).headD 0 &&& KVKeyCompressed = 0 ∧
      (kvMarshal kv prevKey none).headD 0 &&& KVValueCompressed = 0) := by
  refine ⟨rfl, rfl, rfl, rfl, ?_⟩
  intro kv prevKey
  have hM : (kvMarshal kv prevKey none).headD 0 =
      if 0 < getCommonPrefix prevKey kv.Key then 0 ||| KVKeyPrefixed else 0 := by
    simp [kvMarshal, kvCompressPart_none]
  by_cases hp : 0 < getCommonPrefix prevKey kv.Key
  · rw [hM, if_pos hp]
    exact ⟨by decide, by decide⟩
  · rw [hM, if_neg hp]
    exact ⟨by decide, by decide⟩

/-! ## Claim C6: head page validation -/

/-- C6: `HeadPage.validate` fails with the bad-magic error exactly when
the stored magic differs from `Magic`; with magic right, fails with the
version-mismatch error exactly when the version differs from `Version`;
with both right, fails with the checksum-mismatch error exactly when a
non-zero stored checksum differs from the CRC-32 over bytes
`[ptr, PageSize)` of the mapped page 0; a zero stored checksum is
accepted unconditionally.  The embedding is a pure function of the head
page and the mapped bytes, which also captures that validation never
mutates them; the two bounds hypotheses confine the statement to the
slice domain on which the Go expression `db.data[h.ptr:h.PageSize]` is
defined. -/
theorem c6_validate_errors (h : HeadPage) (data : List Nat)
    (hwf1 : h.ptr ≤ h.PageSize) (hwf2 : h.PageSize ≤ data.length) :
    (h.validate data = .error .badMagic ↔ h.magic ≠ Magic) ∧
    (h.magic = Magic →
      (h.validate data = .error .versionMismatch ↔ h.Version ≠ Version)) ∧
    (h.magic = Magic → h.Version = Version →
      (h.validate data = .error .checksumMismatch ↔
        (h.Checksum ≠ 0 ∧ h.Checksum ≠ crc32IEEE ((data.take h.PageSize).drop h.ptr)))) ∧
    (h.magic = Magic → h.Version = Version → h.Checksum = 0 →
      h.validate data = .ok ()) := by
  rw [HeadPage.validate]
  by_cases hm : h.magic ≠ Magic
  · rw [if_pos hm]
    exact ⟨iff_of_true rfl hm, fun h1 => absurd h1 hm, fun h1 _ => absurd h1 hm,
      fun h1 _ _ => absurd h1 hm⟩
  · rw [if_neg hm]
    by_cases hv : h.Version ≠ Sidb.Version
    · rw [if_pos hv]
      exact ⟨iff_of_false (by simp) hm, fun _ => iff_of_true rfl hv,
        fun _ hver => absurd hver hv, fun _ hver => absurd hver hv⟩
    · rw [if_neg hv]
      by_cases hc : h.Checksum ≠ 0 ∧
          h.Checksum ≠ crc32IEEE ((data.take h.PageSize).drop h.ptr)
      · rw [if_pos hc]
        exact ⟨iff_of_false (by simp) hm, fun _ => iff_of_false (by simp) hv,
          fun _ _ => iff_of_true rfl hc, fun _ _ h0 => absurd h0 hc.1⟩
      · rw [if_neg hc]
        exact ⟨iff_of_false (by simp) hm, fun _ => iff_of_false (by simp) hv,
          fun _ _ => iff_of_false (by simp) hc, fun _ _ _ => rfl⟩

/-- C6 witness: a well-formed head page with a zero checksum validates. -/
theorem c6_validate_errors_witness :
    HeadPage.validate ⟨Magic, 0, Version, 0, 0, 2, 0, ⟨0, 48⟩, ⟨1, 32⟩, 0, 0⟩ []
      = .ok () :=
  (c6_validate_errors ⟨Magic, 0, Version, 0, 0, 2, 0, ⟨0, 48⟩, ⟨1, 32⟩, 0, 0⟩ []
    (by decide) (by decide)).2.2.2 rfl rfl rfl

/-! ## Claim C8: mmap sizing -/

lemma mmapSizeLoop_finds (size : Nat) (hsz : size ≤ 2 ^ 30) :
    ∀ k i, 31 - i = k → i ≤ 30 →
    ∃ j, i ≤ j ∧ j ≤ 30 ∧ mmapSizeLoop size i = some (2 ^ j) ∧ size ≤ 2 ^ j ∧
      ∀ m, i ≤ m → m < j → 2 ^ m < size := by
  intro k
  induction k with
  | zero => intro i hk hi; omega
  | succ k ih =>
    intro i hk hi
    rw [mmapSizeLoop, dif_pos hi]
    by_cases hle : size ≤ 1 <<< i
    · rw [if_pos hle]
      rw [Nat.one_shiftLeft] at hle ⊢
      exact ⟨i, Nat.le_refl i, hi, rfl, hle, fun m h1 h2 => absurd h1 (by omega)⟩
    · rw [if_neg hle]
      rw [Nat.one_shiftLeft] at hle
      have hi30 : i < 30 := by
        rcases Nat.lt_or_ge i 30 with hlt | hge
        · exact hlt
        · exfalso
          have : i = 30 := by omega
          subst this
          exact hle hsz
      obtain ⟨j, hj1, hj2, hj3, hj4, hj5⟩ := ih (i + 1) (by omega) (by omega)
      refine ⟨j, by omega, hj2, hj3, hj4, fun m h1 h2 => ?_⟩
      rcases Nat.eq_or_lt_of_le h1 with heq | hlt
      · rw [← heq]
        omega
      · exact hj5 m (by omega) h2

lemma mmapSizeLoop_none (size : Nat) (hsz : 2 ^ 30 < size) :
    ∀ k i, 31 - i ≤ k → mmapSizeLoop size i = none := by
  intro k
  induction k with
  | zero =>
    intro i hk
    rw [mmapSizeLoop, dif_neg (by omega)]
  | succ k ih =>
    intro i hk
    by_cases hi : i ≤ 30
    · rw [mmapSizeLoop, dif_pos hi]
      have hpow : 1 <<< i ≤ 2 ^ 30 := by
        rw [Nat.one_shiftLeft]
        exact Nat.pow_le_pow_right (by omega) hi
      rw [if_neg (by omega)]
      exact ih (i + 1) (by omega)
    · rw [mmapSizeLoop, dif_neg hi]

lemma gib_round_eq (size : Nat) :
    (if size % maxMmapStep > 0 then size + (maxMmapStep - size % maxMmapStep) else size)
      = roundUpTo maxMmapStep size := by
  have hM : maxMmapStep = 1073741824 := rfl
  rw [roundUpTo, hM]
  by_cases h : size % 1073741824 = 0
  · rw [if_neg (by omega), if_pos h]
  · rw [if_pos (by omega), if_neg h]
    omega

lemma page_round_eq (pageSize sz1 : Nat) :
    (if sz1 % pageSize ≠ 0 then (sz1 / pageSize + 1) * pageSize else sz1)
      = roundUpTo pageSize sz1 := by
  rw [roundUpTo]
  by_cases h : sz1 % pageSize = 0
  · rw [if_neg (by simp [h]), if_pos h]
  · rw [if_pos h, if_neg h]

lemma clamp_eq_min (a : Nat) :
    (if a > maxMapSize then (Except.ok maxMapSize : Except Unit Nat) else Except.ok a)
      = Except.ok (min a maxMapSize) := by
  have hM : maxMapSize = 281474976710655 := rfl
  rw [hM]
  split
  · next h => congr 1; omega
  · next h => congr 1; omega

/-- C8: `mmapSize` returns, for a request of at most 1 GiB, the least
power of two at or above the request with a 32 KiB floor; for a larger
request up to the 256 TiB maximum it returns the request rounded up to
a 1 GiB multiple and then to a page-size multiple, clamped so the
result never exceeds the maximum; and it fails with an error exactly
when the requested size itself exceeds the maximum map size. -/
theorem c8_mmapSize_sizing (pageSize size : Nat) (hps : 0 < pageSize) :
    (size ≤ 2 ^ 30 →
      ∃ j, 15 ≤ j ∧ j ≤ 30 ∧ mmapSize pageSize size = .ok (2 ^ j) ∧ size ≤ 2 ^ j ∧
        ∀ m, 15 ≤ m → size ≤ 2 ^ m → 2 ^ j ≤ 2 ^ m) ∧
    (2 ^ 30 < size → size ≤ maxMapSize →
      mmapSize pageSize size = .ok (mmapSizeSpecLarge pageSize size)) ∧
    (maxMapSize < size → mmapSize pageSize size = .error ()) ∧
    (∀ r, mmapSize pageSize size = .ok r → r ≤ maxMapSize) := by
  have hmax : maxMapSize = 281474976710655 := rfl
  have hbig : (2 : Nat) ^ 30 < maxMapSize := by rw [hmax]; norm_num
  have hpart1 : size ≤ 2 ^ 30 →
      ∃ j, 15 ≤ j ∧ j ≤ 30 ∧ mmapSize pageSize size = .ok (2 ^ j) ∧ size ≤ 2 ^ j ∧
        ∀ m, 15 ≤ m → size ≤ 2 ^ m → 2 ^ j ≤ 2 ^ m := by
    intro hsz
    obtain ⟨j, hj1, hj2, hj3, hj4, hj5⟩ :=
      mmapSizeLoop_finds size hsz (31 - 15) 15 rfl (by omega)
    refine ⟨j, hj1, hj2, ?_, hj4, ?_⟩
    · rw [mmapSize, hj3]
    · intro m hm1 hm2
      rcases Nat.lt_or_ge m j with hlt | hge
      · exact absurd hm2 (by have := hj5 m hm1 hlt; omega)
      · exact Nat.pow_le_pow_right (by omega) hge
  have hpart2 : 2 ^ 30 < size → size ≤ maxMapSize →
      mmapSize pageSize size = .ok (mmapSizeSpecLarge pageSize size) := by
    intro hsz hle
    have hnone := mmapSizeLoop_none size hsz (31 - 15) 15 (by omega)
    rw [mmapSize, hnone]
    dsimp only
    rw [if_neg (by omega)]
    rw [gib_round_eq, page_round_eq, clamp_eq_min, mmapSizeSpecLarge]
  have hpart3 : maxMapSize < size → mmapSize pageSize size = .error () := by
    intro hgt
    have hnone := mmapSizeLoop_none size (by omega) (31 - 15) 15 (by omega)
    rw [mmapSize, hnone, if_pos (by omega)]
  refine ⟨hpart1, hpart2, hpart3, ?_⟩
  intro r hr
  rcases le_or_lt size (2 ^ 30) with hsz | hsz
  · obtain ⟨j, _, hj2, hj3, _, _⟩ := hpart1 hsz
    rw [hj3] at hr
    have : r = 2 ^ j := by
      injection hr with h
      exact h.symm
    rw [this]
    calc (2 : Nat) ^ j ≤ 2 ^ 30 := Nat.pow_le_pow_right (by omega) hj2
    _ ≤ maxMapSize := by omega
  · rcases le_or_lt size maxMapSize with hle | hgt
    · rw [hpart2 hsz hle] at hr
      have : r = mmapSizeSpecLarge pageSize size := by
        injection hr with h
        exact h.symm
      rw [this, mmapSizeSpecLarge]
      exact Nat.min_le_right _ _
    · rw [hpart3 hgt] at hr
      exact absurd hr (by simp)

/-- C8 witness: the sizing properties at a concrete page size and
request. -/
theorem c8_mmapSize_sizing_witness :
    ∃ j, 15 ≤ j ∧ j ≤ 30 ∧ mmapSize 4096 1000 = .ok (2 ^ j) ∧ 1000 ≤ 2 ^ j ∧
      ∀ m, 15 ≤ m → 1000 ≤ 2 ^ m → 2 ^ j ≤ 2 ^ m :=
  (c8_mmapSize_sizing 4096 1000 (by norm_num)).1 (by norm_num)

end Sidb
